import Mathlib

/-!
Verification development for the editing core of a multi-document plain-text
editor (Rust sources: `src/update.rs`, `src/app.rs`).

Texts are modelled as lists of Unicode scalar values (`List Char`); byte
positions are modelled through the UTF-8 byte size of each scalar value
(`Char.utf8Size`), matching Rust's `str` byte indexing.  The text-buffer
widget (`iced::text_editor::Content`) is an external adapter: it is modelled
as the stored text plus a (line, column) cursor, with `with_text` installing
the text verbatim.  The regex crate is external as well: the searching
functions are embedded for the configuration the code builds when
`use_regex = false` and `case_sensitive = true` (the query escaped, i.e. a
literal matcher), which is the default configuration of the application.
-/

set_option maxRecDepth 4000

abbrev Str := List Char

/-- Total UTF-8 byte length of a text, as Rust's `str::len`. -/
def utf8Len : Str → Nat
  | [] => 0
  | c :: cs => c.utf8Size + utf8Len cs

/-- The scalar values wholly contained in the first `n` bytes of the text;
on a valid char boundary `n` this is exactly the prefix `&text[..n]`. -/
def takeBytes : Str → Nat → Str
  | _, 0 => []
  | [], _ => []
  | c :: cs, n => if c.utf8Size ≤ n then c :: takeBytes cs (n - c.utf8Size) else []

/-- The scalar values after the first `n` bytes of the text; on a valid char
boundary `n` this is exactly the suffix `&text[n..]`. -/
def dropBytes : Str → Nat → Str
  | s, 0 => s
  | [], _ => []
  | c :: cs, n => if c.utf8Size ≤ n then dropBytes cs (n - c.utf8Size) else c :: cs

/-- Whether byte index `n` is a char boundary of the text (Rust
`str::is_char_boundary`); slicing a `str` at a non-boundary index panics. -/
def boundaryB : Str → Nat → Bool
  | _, 0 => true
  | [], _ => false
  | c :: cs, n => if c.utf8Size ≤ n then boundaryB cs (n - c.utf8Size) else false

/-- Number of `'\n'` characters in a text (`str::matches('\n').count()`). -/
def countNl (s : Str) : Nat := s.count '\n'

/-- The suffix of a text after its last `'\n'` — the whole text when it has
none (`before.rfind('\n').map(|p| p + 1).unwrap_or(0)` in the source). -/
def afterLastNl (s : Str) : Str := (s.reverse.takeWhile (fun c => c ≠ '\n')).reverse

/-- The complementary part: everything up to and including the last `'\n'`. -/
def beforeLastNl (s : Str) : Str := (s.reverse.dropWhile (fun c => c ≠ '\n')).reverse

/-- Embedding of `byte_pos_to_line_col` (src/update.rs:69-75): `line` is the
count of `'\n'` before `byte_pos`, `col` the count of scalar values between
the start of that line and `byte_pos`. -/
def byte_pos_to_line_col (text : Str) (bytePos : Nat) : Nat × Nat :=
  let before := takeBytes text bytePos
  (countNl before, (afterLastNl before).length)

/-- The scalar values of the first `n` lines of a text, each line including
its terminating `'\n'`. -/
def firstLines : Str → Nat → Str
  | _, 0 => []
  | [], _ + 1 => []
  | c :: cs, n + 1 =>
    if c = '\n' then c :: firstLines cs n else c :: firstLines cs (n + 1)

/-- Re-derivation of a byte offset from a (line, col) pair, following the
spec: the byte offset of the start of line `line` plus the byte length of
the first `col` scalar values of that line. -/
def line_col_to_byte_pos (text : Str) (line col : Nat) : Nat :=
  let start := firstLines text line
  utf8Len start + utf8Len ((text.drop start.length).take col)

-- ---------------------------------------------------------------------------
-- Lemmas for C2
-- ---------------------------------------------------------------------------

theorem utf8Len_append (a b : Str) : utf8Len (a ++ b) = utf8Len a + utf8Len b := by
  induction a with
  | nil => simp [utf8Len]
  | cons c cs ih => simp [utf8Len, ih, Nat.add_assoc]

theorem takeBytes_utf8Len_take (text : Str) (k : Nat) :
    takeBytes text (utf8Len (text.take k)) = text.take k := by
  induction text generalizing k with
  | nil => cases k <;> simp [takeBytes, utf8Len]
  | cons c cs ih =>
    cases k with
    | zero => simp [takeBytes, utf8Len]
    | succ k =>
      have hpos := Char.utf8Size_pos c
      simp only [List.take_succ_cons, utf8Len]
      rw [takeBytes]
      · simp only [Nat.le_add_right, if_pos, Nat.add_sub_cancel_left, ih]
      · omega

theorem beforeLastNl_append_afterLastNl (s : Str) :
    beforeLastNl s ++ afterLastNl s = s := by
  unfold beforeLastNl afterLastNl
  rw [← List.reverse_append, List.takeWhile_append_dropWhile]
  exact s.reverse_reverse

theorem afterLastNl_no_nl (s : Str) : '\n' ∉ afterLastNl s := by
  unfold afterLastNl
  intro h
  rw [List.mem_reverse] at h
  have := List.mem_takeWhile_imp h
  simp at this

theorem beforeLastNl_ends_nl (s : Str) :
    beforeLastNl s = [] ∨ (beforeLastNl s).getLast? = some '\n' := by
  unfold beforeLastNl
  rcases h : s.reverse.dropWhile (fun c => c ≠ '\n') with _ | ⟨x, xs⟩
  · left; simp
  · right
    have hx : ¬ (x ≠ '\n') := by
      have := List.head_dropWhile_not (fun c => decide (c ≠ '\n')) (l := s.reverse)
      rw [h] at this
      simpa using this
    simp only [ne_eq, not_not] at hx
    subst hx
    simp [List.getLast?_reverse]

theorem countNl_eq_countNl_beforeLastNl (s : Str) :
    countNl s = countNl (beforeLastNl s) := by
  conv_lhs => rw [← beforeLastNl_append_afterLastNl s]
  unfold countNl
  rw [List.count_append]
  have : (afterLastNl s).count '\n' = 0 :=
    List.count_eq_zero.mpr (afterLastNl_no_nl s)
  omega

theorem firstLines_append_of_ends_nl (a rest : Str)
    (h : a = [] ∨ a.getLast? = some '\n') :
    firstLines (a ++ rest) (countNl a) = a := by
  induction a with
  | nil => simp [countNl, firstLines]
  | cons c cs ih =>
    rcases h with h | h
    · exact absurd h (by simp)
    by_cases hc : c = '\n'
    · subst hc
      have hcount : countNl ('\n' :: cs) = countNl cs + 1 := by
        simp [countNl]
      rw [hcount]
      simp only [List.cons_append, firstLines, List.append_eq, if_true]
      rcases Classical.em (cs = []) with hnil | hnil
      · subst hnil; simp [countNl, firstLines]
      · have hlast : cs.getLast? = some '\n' := by
          rcases cs with _ | ⟨d, ds⟩
          · exact absurd rfl hnil
          · rwa [List.getLast?_cons_cons] at h
        rw [ih (Or.inr hlast)]
    · have hnil : cs ≠ [] := by
        intro hn; subst hn
        simp at h
        exact hc h
      have hlast : cs.getLast? = some '\n' := by
        rcases cs with _ | ⟨d, ds⟩
        · exact absurd rfl hnil
        · rwa [List.getLast?_cons_cons] at h
      have hmem : '\n' ∈ cs := by
        obtain ⟨h9, hx⟩ := List.mem_getLast?_eq_getLast (Option.mem_def.mpr hlast)
        exact hx ▸ List.getLast_mem h9
      have hpos : 0 < countNl cs := List.count_pos_iff.mpr hmem
      have hcount : countNl (c :: cs) = countNl cs := by
        simp [countNl, List.count_cons, hc]
      rw [hcount]
      rcases Nat.exists_eq_succ_of_ne_zero (Nat.pos_iff_ne_zero.mp hpos) with ⟨m, hm⟩
      rw [hm]
      simp only [List.cons_append, firstLines, if_neg hc, List.append_eq]
      have hm' : m + 1 = countNl cs := by omega
      rw [hm', ih (Or.inr hlast)]

theorem line_col_to_byte_pos_of_append (p rest : Str) :
    line_col_to_byte_pos (p ++ rest) (countNl p) (afterLastNl p).length
      = utf8Len p := by
  have hdecomp := beforeLastNl_append_afterLastNl p
  have happ : p ++ rest = beforeLastNl p ++ (afterLastNl p ++ rest) := by
    rw [← List.append_assoc, hdecomp]
  show utf8Len (firstLines (p ++ rest) (countNl p)) +
      utf8Len (((p ++ rest).drop (firstLines (p ++ rest) (countNl p)).length).take
        (afterLastNl p).length) = utf8Len p
  rw [countNl_eq_countNl_beforeLastNl, happ,
    firstLines_append_of_ends_nl _ _ (beforeLastNl_ends_nl p),
    List.drop_left, List.take_left, ← utf8Len_append, hdecomp]

/-- C2: for every text and every byte position that is a valid char boundary
(i.e. the UTF-8 length of some prefix of scalar values), `byte_pos_to_line_col`
returns the count of `'\n'` before the position and the count of scalar values
from the start of that line to the position, and re-deriving the byte offset
from the returned (line, col) and the same text yields the original position —
for ASCII and multi-byte content alike. -/
theorem c2_byte_pos_to_line_col_round_trip (text : Str) (bytePos : Nat)
    (hb : ∃ k, bytePos = utf8Len (text.take k)) :
    (∀ k, bytePos = utf8Len (text.take k) →
        byte_pos_to_line_col text bytePos =
          ((text.take k).count '\n', (afterLastNl (text.take k)).length)) ∧
    line_col_to_byte_pos text (byte_pos_to_line_col text bytePos).1
        (byte_pos_to_line_col text bytePos).2 = bytePos := by
  constructor
  · intro k hk
    subst hk
    unfold byte_pos_to_line_col
    rw [takeBytes_utf8Len_take]
    rfl
  · obtain ⟨k, hk⟩ := hb
    subst hk
    unfold byte_pos_to_line_col
    rw [takeBytes_utf8Len_take]
    have := line_col_to_byte_pos_of_append (text.take k) (text.drop k)
    rw [List.take_append_drop] at this
    exact this

/-- C2 witness: at text `"aé\nb"` and byte position 3 (the boundary after
`'é'`), the conversion returns line 0, column 2 and the round trip restores 3. -/
theorem c2_witness :
    byte_pos_to_line_col ['a', 'é', '\n', 'b'] 3 = (0, 2) ∧
    line_col_to_byte_pos ['a', 'é', '\n', 'b'] 0 2 = 3 := by
  have h := c2_byte_pos_to_line_col_round_trip ['a', 'é', '\n', 'b'] 3
    ⟨2, by decide⟩
  have h1 : byte_pos_to_line_col ['a', 'é', '\n', 'b'] 3 = (0, 2) :=
    (h.1 2 (by decide)).trans (by decide)
  refine ⟨h1, ?_⟩
  have h2 := h.2
  rw [h1] at h2
  exact h2

-- ---------------------------------------------------------------------------
-- Data model (src/app.rs): snapshots, documents, the application state
-- ---------------------------------------------------------------------------

/-- Embeds `MAX_UNDO_HISTORY` (src/app.rs:11). -/
def MAX_UNDO_HISTORY : Nat := 200

/-- Embeds `UNDO_BATCH_TIMEOUT_MS` (src/app.rs:12); times are modelled as
milliseconds on a monotonic `Nat` clock. -/
def UNDO_BATCH_TIMEOUT_MS : Nat := 300

/-- Embeds `TextSnapshot` (src/app.rs:29-33). -/
structure TextSnapshot where
  text : Str
  cursor_line : Nat
  cursor_col : Nat
deriving DecidableEq

/-- Embeds `LineEnding` (src/app.rs:168-172). -/
inductive LineEnding where
  | lf
  | crlf
deriving DecidableEq

/-- Embeds `LineEnding::detect` (src/app.rs:175-181): presence test for the
two-character sequence `"\r\n"`. -/
def LineEnding.detect (text : Str) : LineEnding :=
  if List.IsInfix ['\r', '\n'] text then .crlf else .lf

/-- Embeds `Document` (src/app.rs:37-47).  The buffer widget is modelled by its
stored text plus its (line, column) cursor; `max_undo` is the adaptive
snapshot bound the update code reads (its declaration is not in the sources
under src/, so it is modelled from the spec: a per-document bound defaulting
to `MAX_UNDO_HISTORY`).  Cached statistics are pure functions of the text and
are not observed by any claim, so they are not carried. -/
structure Document where
  text : Str
  cursor_line : Nat
  cursor_col : Nat
  file_path : Option Str
  is_modified : Bool
  undo_stack : List TextSnapshot
  redo_stack : List TextSnapshot
  last_edit_time : Option Nat
  line_ending : LineEnding
  scroll_offset : Nat
  status_message : Option Str
  max_undo : Nat
deriving DecidableEq

/-- Embeds `Document::default` (src/app.rs:49-65): empty, path-less, unmodified,
with empty histories. -/
def Document.default : Document :=
  { text := []
    cursor_line := 0
    cursor_col := 0
    file_path := none
    is_modified := false
    undo_stack := []
    redo_stack := []
    last_edit_time := none
    line_ending := .lf
    scroll_offset := 0
    status_message := none
    max_undo := MAX_UNDO_HISTORY }

/-- The application state `Notepad` (src/app.rs:193-223), restricted to the
fields the core operations read: the tabs, the active index and the shared
find/replace state.  The search embedding fixes `use_regex = false` and
`case_sensitive = true` (the default configuration; the regex crate is an
external collaborator). -/
structure Notepad where
  tabs : List Document
  active_tab : Nat
  find_query : Str
  replace_query : Str
  find_cursor : Nat
deriving DecidableEq

/-- Embeds `Notepad::active_doc` (src/app.rs:270-272); the active index is a valid
index in every reachable state. -/
def Notepad.activeDoc (n : Notepad) : Document :=
  n.tabs.getD n.active_tab Document.default

/-- Replacing the active document, the effect of writing through
`Notepad::active_doc_mut` (src/app.rs:274-276). -/
def Notepad.setActive (n : Notepad) (d : Document) : Notepad :=
  { n with tabs := n.tabs.set n.active_tab d }

/-- Applying a document-local operation to the active document; all
undo/redo/edit operations of the source only touch the active document. -/
def Notepad.withActive (n : Notepad) (f : Document → Document) : Notepad :=
  n.setActive (f n.activeDoc)

-- ---------------------------------------------------------------------------
-- Cursor relocation (src/update.rs:930-978)
-- ---------------------------------------------------------------------------

/-- The buffer's lines, split at `'\n'` (adapter view of the content). -/
def contentLines (t : Str) : List Str := t.splitOn '\n'

/-- Embeds `Content::line_count` of the adapter: one more than the newline count. -/
def lineCount (t : Str) : Nat := countNl t + 1

/-- Character length of line `l` of the buffer. -/
def lineLen (t : Str) (l : Nat) : Nat := ((contentLines t).getD l []).length

/-- One `Motion::Right` step of the buffer adapter: advance within the line,
else to the start of the next line, else stay at the end of the document. -/
def rightStep (t : Str) (p : Nat × Nat) : Nat × Nat :=
  if p.2 < lineLen t p.1 then (p.1, p.2 + 1)
  else if p.1 + 1 < lineCount t then (p.1 + 1, 0)
  else p

/-- Embeds `Notepad::navigate_to` (src/update.rs:930-978) restricted to the active
document: the three relocation strategies (from current line, from document
start, from document end) all land on `target_line = min line last_line`;
then `Motion::Home` and `col` `Motion::Right` steps; `scroll_offset` is set
to the target line. -/
def Document.navTo (d : Document) (line col : Nat) : Document :=
  let lastLine := lineCount d.text - 1
  let target := min line lastLine
  let p := (rightStep d.text)^[col] (target, 0)
  { d with cursor_line := p.1, cursor_col := p.2, scroll_offset := target }

-- ---------------------------------------------------------------------------
-- Undo/redo engine (src/update.rs:679-756)
-- ---------------------------------------------------------------------------

/-- The snapshot of the current buffer state (text plus cursor), as built by
`save_snapshot`/`save_snapshot_if_needed`/`undo`/`redo`. -/
def snapOf (d : Document) : TextSnapshot :=
  ⟨d.text, d.cursor_line, d.cursor_col⟩

/-- Embeds `Notepad::push_snapshot` (src/update.rs:679-685) on the active document:
push at the back, then pop from the front while the length exceeds
`max_undo`. -/
def Document.pushSnap (d : Document) (s : TextSnapshot) : Document :=
  let st := d.undo_stack ++ [s]
  { d with undo_stack := st.drop (st.length - d.max_undo) }

/-- Embeds `Notepad::save_snapshot` (src/update.rs:687-699) on the active document:
unconditional boundary snapshot; clears the redo stack and resets the batch
timer. -/
def Document.saveSnap (d : Document) : Document :=
  let d1 := d.pushSnap (snapOf d)
  { d1 with redo_stack := [], last_edit_time := none }

/-- The batching condition of `save_snapshot_if_needed`: push only when no
snapshot was pushed within the timeout window (`duration_since` saturates at
zero, as `Nat` subtraction does). -/
def shouldSave (last : Option Nat) (now : Nat) : Bool :=
  match last with
  | none => true
  | some l => UNDO_BATCH_TIMEOUT_MS < now - l

/-- Embeds `Notepad::save_snapshot_if_needed` (src/update.rs:701-719) on the active
document: push a snapshot and clear the redo stack only outside the batching
window; always record the edit time. -/
def Document.saveSnapIfNeeded (d : Document) (now : Nat) : Document :=
  if shouldSave d.last_edit_time now then
    let d1 := d.pushSnap (snapOf d)
    { d1 with redo_stack := [], last_edit_time := some now }
  else
    { d with last_edit_time := some now }

/-- The observable effect of one content-mutating `text_editor::Edit` action
on the buffer adapter: the resulting text and cursor (arbitrary, covering
insertions, deletions, paste, …). -/
structure EditOp where
  new_text : Str
  new_line : Nat
  new_col : Nat
deriving DecidableEq

/-- Embeds `Notepad::handle_editor_action` (src/update.rs:109-145) for a
content-mutating `Action::Edit`: snapshot if needed, perform the edit, mark
modified, clear the status message. -/
def Document.applyEditD (d : Document) (now : Nat) (e : EditOp) : Document :=
  let d1 := d.saveSnapIfNeeded now
  { d1 with
    text := e.new_text
    cursor_line := e.new_line
    cursor_col := e.new_col
    is_modified := true
    status_message := none }

/-- Embeds `Notepad::undo` (src/update.rs:721-738) on the active document: pop the
newest undo snapshot, push the current state on redo, install the popped
text, relocate the cursor, mark modified.  No-op on an empty stack. -/
def Document.undoD (d : Document) : Document :=
  match d.undo_stack.getLast? with
  | none => d
  | some snap =>
    let d1 := { d with
      undo_stack := d.undo_stack.dropLast
      redo_stack := d.redo_stack ++ [snapOf d]
      text := snap.text
      is_modified := true }
    d1.navTo snap.cursor_line snap.cursor_col

/-- Embeds `Notepad::redo` (src/update.rs:740-756) on the active document:
symmetric to `undoD`; the current state is pushed back onto the undo stack
(directly, without the `push_snapshot` trimming). -/
def Document.redoD (d : Document) : Document :=
  match d.redo_stack.getLast? with
  | none => d
  | some snap =>
    let d1 := { d with
      redo_stack := d.redo_stack.dropLast
      undo_stack := d.undo_stack ++ [snapOf d]
      text := snap.text
      is_modified := true }
    d1.navTo snap.cursor_line snap.cursor_col

/-- Session-level edit action (routed to the active document). -/
def Notepad.applyEdit (n : Notepad) (now : Nat) (e : EditOp) : Notepad :=
  n.withActive (fun d => d.applyEditD now e)

/-- Session-level `undo` (routed to the active document). -/
def Notepad.undo (n : Notepad) : Notepad := n.withActive Document.undoD

/-- Session-level `redo` (routed to the active document). -/
def Notepad.redo (n : Notepad) : Notepad := n.withActive Document.redoD

/-- Session-level `save_snapshot` (the boundary snapshot used before
cut/paste/replace/date-insert). -/
def Notepad.saveSnapshot (n : Notepad) : Notepad := n.withActive Document.saveSnap

/-- Embeds `Notepad::remove_tab` (src/update.rs:272-285): the last tab is replaced
by an empty document; otherwise the tab is removed and the active index is
adjusted. -/
def Notepad.removeTab (n : Notepad) (index : Nat) : Notepad :=
  if n.tabs.length ≤ 1 then
    { n with tabs := n.tabs.set 0 Document.default, active_tab := 0 }
  else
    let tabs' := n.tabs.eraseIdx index
    let a :=
      if tabs'.length ≤ n.active_tab then tabs'.length - 1
      else if index < n.active_tab then n.active_tab - 1
      else n.active_tab
    { n with tabs := tabs', active_tab := a }

-- ---------------------------------------------------------------------------
-- C6: bounded undo history
-- ---------------------------------------------------------------------------

theorem pushSnap_undo_stack_length (d : Document) (s : TextSnapshot) :
    (d.pushSnap s).undo_stack.length = min (d.undo_stack.length + 1) d.max_undo := by
  simp only [Document.pushSnap, List.length_drop, List.length_append,
    List.length_cons, List.length_nil]
  omega

theorem pushSnap_max_undo (d : Document) (s : TextSnapshot) :
    (d.pushSnap s).max_undo = d.max_undo := rfl

theorem foldl_pushSnap_bounded (snaps : List TextSnapshot) (d : Document)
    (hle : d.undo_stack.length ≤ d.max_undo) :
    (snaps.foldl Document.pushSnap d).undo_stack.length ≤ d.max_undo ∧
    (snaps.foldl Document.pushSnap d).max_undo = d.max_undo := by
  induction snaps generalizing d with
  | nil => exact ⟨hle, rfl⟩
  | cons s ss ih =>
    have h1 : (d.pushSnap s).undo_stack.length ≤ (d.pushSnap s).max_undo := by
      rw [pushSnap_undo_stack_length, pushSnap_max_undo]
      omega
    have := ih (d.pushSnap s) h1
    simpa [List.foldl_cons, pushSnap_max_undo] using this

/-- C6: for every document and every sequence of snapshot pushes the undo
stack never grows beyond `max_undo`; a push below the bound appends without
eviction, and a push at the bound evicts exactly the single oldest entry
(front of the deque) while appending the new one at the back. -/
theorem c6_push_snapshot_bounded (d : Document) (snaps : List TextSnapshot)
    (s : TextSnapshot) (hle : d.undo_stack.length ≤ d.max_undo) :
    (snaps.foldl Document.pushSnap d).undo_stack.length ≤ d.max_undo ∧
    (d.undo_stack.length < d.max_undo →
      (d.pushSnap s).undo_stack = d.undo_stack ++ [s]) ∧
    (d.undo_stack.length = d.max_undo → 0 < d.max_undo →
      (d.pushSnap s).undo_stack = d.undo_stack.tail ++ [s]) := by
  refine ⟨(foldl_pushSnap_bounded snaps d hle).1, ?_, ?_⟩
  · intro hlt
    simp only [Document.pushSnap]
    rw [Nat.sub_eq_zero_of_le (by simp; omega), List.drop_zero]
  · intro heq hpos
    simp only [Document.pushSnap]
    have hone : d.undo_stack.length + 1 - d.max_undo = 1 := by omega
    rcases hst : d.undo_stack with _ | ⟨x, xs⟩
    · rw [hst] at heq; simp at heq; omega
    · have h1 : xs.length + 1 + 1 - d.max_undo = 1 := by
        rw [hst] at heq
        simp at heq
        omega
      simp [h1]

/-- C6 witness: a document whose stack holds 2 snapshots with `max_undo = 2`;
pushing two more snapshots keeps the length at the bound, and a single push
evicts exactly the oldest entry. -/
theorem c6_witness :
    (([⟨['c'], 0, 0⟩, ⟨['d'], 0, 0⟩] : List TextSnapshot).foldl Document.pushSnap
        { Document.default with
            undo_stack := [⟨['a'], 0, 0⟩, ⟨['b'], 0, 0⟩], max_undo := 2 }).undo_stack.length ≤ 2 ∧
    ({ Document.default with
        undo_stack := [⟨['a'], 0, 0⟩, ⟨['b'], 0, 0⟩], max_undo := 2 }.pushSnap
          ⟨['e'], 0, 0⟩).undo_stack = [⟨['b'], 0, 0⟩, ⟨['e'], 0, 0⟩] := by
  have h := c6_push_snapshot_bounded
    { Document.default with undo_stack := [⟨['a'], 0, 0⟩, ⟨['b'], 0, 0⟩], max_undo := 2 }
    [⟨['c'], 0, 0⟩, ⟨['d'], 0, 0⟩] ⟨['e'], 0, 0⟩ (by decide)
  exact ⟨h.1, (h.2.2 (by decide) (by decide)).trans (by decide)⟩

-- ---------------------------------------------------------------------------
-- C9: closing the only remaining tab
-- ---------------------------------------------------------------------------

/-- C9: removing the tab of a session holding a single document leaves a
session holding exactly one document — the empty default: unmodified,
path-less, with empty undo and redo stacks — and the active index at 0. -/
theorem c9_remove_last_tab (n : Notepad) (i : Nat) (h1 : n.tabs.length = 1) :
    (n.removeTab i).tabs.length = 1 ∧
    (n.removeTab i).active_tab = 0 ∧
    (n.removeTab i).activeDoc = Document.default ∧
    (n.removeTab i).activeDoc.is_modified = false ∧
    (n.removeTab i).activeDoc.file_path = none ∧
    (n.removeTab i).activeDoc.undo_stack = [] ∧
    (n.removeTab i).activeDoc.redo_stack = [] := by
  rcases hcase : n.tabs with _ | ⟨d, rest⟩
  · rw [hcase] at h1; simp at h1
  · rw [hcase] at h1
    simp only [List.length_cons, Nat.add_left_eq_self, List.length_eq_zero] at h1
    subst h1
    simp [Notepad.removeTab, hcase, Notepad.activeDoc]
    exact ⟨rfl, rfl, rfl, rfl⟩

/-- C9 witness: closing the only tab of a concrete modified, file-backed
document with history yields the pristine single-document session. -/
theorem c9_witness :
    (Notepad.removeTab
      { tabs := [{ Document.default with
                     text := ['h', 'i'], is_modified := true,
                     file_path := some ['t'],
                     undo_stack := [⟨['h'], 0, 0⟩],
                     redo_stack := [⟨['o'], 0, 0⟩] }]
        active_tab := 0
        find_query := []
        replace_query := []
        find_cursor := 0 } 0).activeDoc = Document.default := by
  have h := c9_remove_last_tab
    { tabs := [{ Document.default with
                   text := ['h', 'i'], is_modified := true,
                   file_path := some ['t'],
                   undo_stack := [⟨['h'], 0, 0⟩],
                   redo_stack := [⟨['o'], 0, 0⟩] }]
      active_tab := 0
      find_query := []
      replace_query := []
      find_cursor := 0 } 0 (by decide)
  exact h.2.2.1

-- ---------------------------------------------------------------------------
-- C10: closing a non-active tab
-- ---------------------------------------------------------------------------

theorem getElem?_eraseIdx_of_ne {α : Type} (l : List α) (i j : Nat)
    (hi : i < l.length) (hne : i ≠ j) :
    (l.eraseIdx i)[if i < j then j - 1 else j]? = l[j]? := by
  rw [List.eraseIdx_eq_take_drop_succ]
  have hlt : (l.take i).length = i := by
    rw [List.length_take]; omega
  by_cases h : i < j
  · rw [if_pos h, List.getElem?_append_right (by omega), List.getElem?_drop]
    congr 1
    omega
  · rw [if_neg h, List.getElem?_append, if_pos (by omega : j < (List.take i l).length)]
    rw [List.getElem?_take, if_pos (by omega)]

/-- C10: removing a non-active tab from a session with at least two
documents keeps the remaining documents untouched (the tab list is exactly
the old list with the closed index erased), decrements the active index by
one exactly when the removed index is below it, keeps it in range, and keeps
the active document itself unchanged. -/
theorem c10_remove_tab_frame (n : Notepad) (i : Nat)
    (h2 : 2 ≤ n.tabs.length) (hi : i < n.tabs.length)
    (hA : n.active_tab < n.tabs.length) (hne : i ≠ n.active_tab) :
    (n.removeTab i).tabs = n.tabs.eraseIdx i ∧
    (n.removeTab i).active_tab =
      (if i < n.active_tab then n.active_tab - 1 else n.active_tab) ∧
    (n.removeTab i).active_tab < (n.removeTab i).tabs.length ∧
    (n.removeTab i).activeDoc = n.activeDoc := by
  have hlen : (n.tabs.eraseIdx i).length = n.tabs.length - 1 := by
    have := List.length_eraseIdx_add_one hi
    omega
  have hcond : ¬ n.tabs.length ≤ 1 := by omega
  have htabs : (n.removeTab i).tabs = n.tabs.eraseIdx i := by
    simp [Notepad.removeTab, hcond]
  have hact : (n.removeTab i).active_tab =
      (if i < n.active_tab then n.active_tab - 1 else n.active_tab) := by
    simp only [Notepad.removeTab, if_neg hcond]
    rw [hlen]
    split_ifs <;> omega
  refine ⟨htabs, hact, ?_, ?_⟩
  · rw [hact, htabs, hlen]
    split_ifs <;> omega
  · have hget := getElem?_eraseIdx_of_ne n.tabs i n.active_tab hi hne
    simp only [Notepad.activeDoc, htabs, hact]
    rw [List.getD_eq_getElem?_getD, List.getD_eq_getElem?_getD, hget]

/-- Two concrete documents and a two-tab session used by witnesses. -/
def docA : Document := { Document.default with text := ['a'] }

def docB : Document := { Document.default with text := ['b'] }

def sessionAB : Notepad :=
  { tabs := [docA, docB]
    active_tab := 1
    find_query := []
    replace_query := []
    find_cursor := 0 }

/-- C10 witness: in a two-tab session with the second tab active, closing
the first tab shifts the active index to 0 and the active document is the
same `Document` as before. -/
theorem c10_witness :
    (sessionAB.removeTab 0).active_tab = 0 ∧
    (sessionAB.removeTab 0).activeDoc = sessionAB.activeDoc := by
  have h := c10_remove_tab_frame sessionAB 0 (by decide) (by decide)
    (by decide) (by decide)
  exact ⟨h.2.1.trans (by decide), h.2.2.2⟩

-- ---------------------------------------------------------------------------
-- C1 / C4: undo/redo against edits
-- ---------------------------------------------------------------------------

theorem navTo_frame (d : Document) (l c : Nat) :
    (d.navTo l c).text = d.text ∧
    (d.navTo l c).undo_stack = d.undo_stack ∧
    (d.navTo l c).redo_stack = d.redo_stack ∧
    (d.navTo l c).last_edit_time = d.last_edit_time ∧
    (d.navTo l c).max_undo = d.max_undo :=
  ⟨rfl, rfl, rfl, rfl, rfl⟩

theorem applyEditD_fresh (d : Document) (t : Nat) (e : EditOp)
    (hfresh : shouldSave d.last_edit_time t = true) :
    d.applyEditD t e = { d with
      text := e.new_text
      cursor_line := e.new_line
      cursor_col := e.new_col
      is_modified := true
      status_message := none
      undo_stack := (d.undo_stack ++ [snapOf d]).drop
        (d.undo_stack.length + 1 - d.max_undo)
      redo_stack := []
      last_edit_time := some t } := by
  simp [Document.applyEditD, Document.saveSnapIfNeeded, hfresh, Document.pushSnap]

/-- Effect of one fresh (outside the batching window) edit followed
immediately by `undo`: the buffer text is restored, the batch timestamp is
the edit's, and the redo stack holds exactly the undone edit. -/
theorem editUndoD_effect (d : Document) (t : Nat) (e : EditOp)
    (hmax : 0 < d.max_undo) (hfresh : shouldSave d.last_edit_time t = true) :
    ((d.applyEditD t e).undoD).text = d.text ∧
    ((d.applyEditD t e).undoD).max_undo = d.max_undo ∧
    ((d.applyEditD t e).undoD).last_edit_time = some t ∧
    ((d.applyEditD t e).undoD).redo_stack = [⟨e.new_text, e.new_line, e.new_col⟩] := by
  rw [applyEditD_fresh d t e hfresh]
  have hk : d.undo_stack.length + 1 - d.max_undo ≤ d.undo_stack.length := by omega
  have hdrop : ((d.undo_stack ++ [snapOf d]).drop (d.undo_stack.length + 1 - d.max_undo))
      = d.undo_stack.drop (d.undo_stack.length + 1 - d.max_undo) ++ [snapOf d] :=
    List.drop_append_of_le_length hk
  unfold Document.undoD
  rw [hdrop]
  simp only [List.getLast?_concat]
  simp [Document.navTo, snapOf]

theorem redoD_of_singleton (d : Document) (s : TextSnapshot)
    (h : d.redo_stack = [s]) :
    d.redoD.text = s.text ∧ d.redoD.redo_stack = [] := by
  unfold Document.redoD
  rw [h]
  simp [Document.navTo]

theorem redoD_of_empty (d : Document) (h : d.redo_stack = []) : d.redoD = d := by
  unfold Document.redoD
  rw [h]
  rfl

theorem redoD_iterate_of_empty (k : Nat) (d : Document) (h : d.redo_stack = []) :
    Document.redoD^[k] d = d := by
  induction k with
  | zero => rfl
  | succ m ih =>
    rw [Function.iterate_succ_apply, redoD_of_empty d h]
    exact ih

/-- Bool form of the batching-freshness chain: each edit time is outside the
batching window of the previous one (the first relative to the document's
recorded `last_edit_time`). -/
def freshTimesB : Option Nat → List (Nat × EditOp) → Bool
  | _, [] => true
  | last, (t, _) :: es => shouldSave last t && freshTimesB (some t) es

/-- Applying `N` content-mutating edits, each immediately followed by one `undo`,
applied to the active document. -/
def editUndoPairs (n : Notepad) (es : List (Nat × EditOp)) : Notepad :=
  es.foldl (fun m p => (m.applyEdit p.1 p.2).undo) n

/-- Document-level counterpart of `editUndoPairs`. -/
def editUndoPairsD (d : Document) (es : List (Nat × EditOp)) : Document :=
  es.foldl (fun d p => (d.applyEditD p.1 p.2).undoD) d

theorem editUndoPairsD_effect (es : List (Nat × EditOp)) (d : Document)
    (hmax : 0 < d.max_undo)
    (hfresh : freshTimesB d.last_edit_time es = true) :
    (editUndoPairsD d es).text = d.text ∧
    (editUndoPairsD d es).max_undo = d.max_undo ∧
    (editUndoPairsD d es).redo_stack =
      (match es.getLast? with
       | none => d.redo_stack
       | some p => [⟨p.2.new_text, p.2.new_line, p.2.new_col⟩]) := by
  induction es generalizing d with
  | nil => exact ⟨rfl, rfl, rfl⟩
  | cons p ps ih =>
    rcases p with ⟨t, e⟩
    have hf : shouldSave d.last_edit_time t = true ∧
        freshTimesB (some t) ps = true := by
      simpa [freshTimesB, Bool.and_eq_true] using hfresh
    have hstep := editUndoD_effect d t e hmax hf.1
    have hmax' : 0 < ((d.applyEditD t e).undoD).max_undo := by
      rw [hstep.2.1]; exact hmax
    have hfresh' : freshTimesB ((d.applyEditD t e).undoD).last_edit_time ps = true := by
      rw [hstep.2.2.1]; exact hf.2
    have hfold : editUndoPairsD d ((t, e) :: ps)
        = editUndoPairsD ((d.applyEditD t e).undoD) ps := rfl
    rw [hfold]
    cases ps with
    | nil =>
      exact ⟨hstep.1, hstep.2.1, hstep.2.2.2⟩
    | cons q qs =>
      have ihp := ih ((d.applyEditD t e).undoD) hmax' hfresh'
      refine ⟨ihp.1.trans hstep.1, ihp.2.1.trans hstep.2.1, ?_⟩
      rw [List.getLast?_cons_cons]
      rcases hmatch : (q :: qs).getLast? with _ | q'
      · have h5 : ((q :: qs).getLast?).isSome := List.getLast?_isSome.mpr (by simp)
        rw [hmatch] at h5
        simp at h5
      · rw [hmatch] at ihp
        exact ihp.2.2

theorem withActive_frame (n : Notepad) (f : Document → Document)
    (h : n.active_tab < n.tabs.length) :
    (n.withActive f).activeDoc = f n.activeDoc ∧
    (n.withActive f).active_tab = n.active_tab ∧
    (n.withActive f).tabs.length = n.tabs.length := by
  refine ⟨?_, rfl, by simp [Notepad.withActive, Notepad.setActive]⟩
  simp [Notepad.withActive, Notepad.setActive, Notepad.activeDoc,
    List.getD_eq_getElem?_getD, List.getElem?_set_self h]

theorem editUndoPairs_bridge (es : List (Nat × EditOp)) (n : Notepad)
    (h : n.active_tab < n.tabs.length) :
    (editUndoPairs n es).activeDoc = editUndoPairsD n.activeDoc es ∧
    (editUndoPairs n es).active_tab = n.active_tab ∧
    (editUndoPairs n es).tabs.length = n.tabs.length := by
  induction es generalizing n with
  | nil => exact ⟨rfl, rfl, rfl⟩
  | cons p ps ih =>
    have hstep : (n.applyEdit p.1 p.2).undo
        = n.withActive (fun d => (d.applyEditD p.1 p.2).undoD) := by
      have h1 := (withActive_frame n (fun d => d.applyEditD p.1 p.2) h).1
      simp only [Notepad.withActive] at h1
      simp only [Notepad.applyEdit, Notepad.undo, Notepad.withActive]
      rw [h1]
      simp [Notepad.setActive, List.set_set]
    have hfold : editUndoPairs n (p :: ps)
        = editUndoPairs ((n.applyEdit p.1 p.2).undo) ps := rfl
    rw [hfold, hstep]
    have hframe := withActive_frame n (fun d => (d.applyEditD p.1 p.2).undoD) h
    have h' : (n.withActive (fun d => (d.applyEditD p.1 p.2).undoD)).active_tab
        < (n.withActive (fun d => (d.applyEditD p.1 p.2).undoD)).tabs.length := by
      rw [hframe.2.1, hframe.2.2]; exact h
    have := ih (n.withActive (fun d => (d.applyEditD p.1 p.2).undoD)) h'
    refine ⟨?_, this.2.1.trans hframe.2.1, this.2.2.trans hframe.2.2⟩
    rw [this.1, hframe.1]
    rfl

theorem redo_iterate_bridge (k : Nat) (n : Notepad)
    (h : n.active_tab < n.tabs.length) :
    (Notepad.redo^[k] n).activeDoc = Document.redoD^[k] n.activeDoc ∧
    (Notepad.redo^[k] n).active_tab = n.active_tab ∧
    (Notepad.redo^[k] n).tabs.length = n.tabs.length := by
  induction k generalizing n with
  | zero => exact ⟨rfl, rfl, rfl⟩
  | succ m ih =>
    have hframe := withActive_frame n Document.redoD h
    have h' : n.redo.active_tab < n.redo.tabs.length := by
      show (n.withActive Document.redoD).active_tab
        < (n.withActive Document.redoD).tabs.length
      rw [hframe.2.1, hframe.2.2]; exact h
    have := ih n.redo h'
    rw [Function.iterate_succ_apply, Function.iterate_succ_apply]
    refine ⟨?_, this.2.1.trans hframe.2.1, this.2.2.trans hframe.2.2⟩
    rw [this.1]
    show Document.redoD^[m] (n.withActive Document.redoD).activeDoc
      = Document.redoD^[m] (Document.redoD n.activeDoc)
    rw [hframe.1]

/-- C1 (amended): for a session with a valid active tab whose active document
has a positive snapshot budget, after `N` content-mutating edits — each
beginning a new undo unit, i.e. arriving outside the 300 ms batching window
of the document's previous recorded edit — each immediately followed by one
`undo()`, the buffer text equals its state before those edits; after an
equal number of subsequent `redo()` calls it equals the text produced by the
final edit. -/
theorem c1_undo_redo_inverse_amended (n : Notepad) (es : List (Nat × EditOp))
    (hA : n.active_tab < n.tabs.length)
    (hmax : 0 < n.activeDoc.max_undo)
    (hfresh : freshTimesB n.activeDoc.last_edit_time es = true) :
    (editUndoPairs n es).activeDoc.text = n.activeDoc.text ∧
    (Notepad.redo^[es.length] (editUndoPairs n es)).activeDoc.text =
      (match es.getLast? with
       | none => n.activeDoc.text
       | some p => p.2.new_text) := by
  have hb := editUndoPairs_bridge es n hA
  have hd := editUndoPairsD_effect es n.activeDoc hmax hfresh
  refine ⟨by rw [hb.1]; exact hd.1, ?_⟩
  have hA' : (editUndoPairs n es).active_tab < (editUndoPairs n es).tabs.length := by
    rw [hb.2.1, hb.2.2]; exact hA
  have hr := redo_iterate_bridge es.length (editUndoPairs n es) hA'
  rw [hr.1, hb.1]
  cases es with
  | nil => exact hd.1
  | cons p ps =>
    rcases hq : (p :: ps).getLast? with _ | q
    · have h5 : ((p :: ps).getLast?).isSome := List.getLast?_isSome.mpr (by simp)
      rw [hq] at h5
      simp at h5
    · rw [hq] at hd
      have h1 := redoD_of_singleton (editUndoPairsD n.activeDoc (p :: ps))
        ⟨q.2.new_text, q.2.new_line, q.2.new_col⟩ hd.2.2
      rw [List.length_cons, Function.iterate_succ_apply,
        redoD_iterate_of_empty ps.length _ h1.2]
      exact h1.1

/-- The pristine startup session: one empty default document
(`Notepad::default`, src/app.rs:225-250, restricted to the modelled
fields). -/
def emptySession : Notepad :=
  { tabs := [Document.default]
    active_tab := 0
    find_query := []
    replace_query := []
    find_cursor := 0 }

/-- A session reached from startup by two spaced keystroke edits: text
`"X"` at t = 0 ms, then text `"A"` at t = 400 ms. -/
def sessionXA : Notepad :=
  (emptySession.applyEdit 0 ⟨['X'], 0, 0⟩).applyEdit 400 ⟨['A'], 0, 0⟩

/-- C1 counterexample: from the reachable state `sessionXA` (buffer `"A"`),
two edits each immediately followed by one `undo` — the second edit arriving
100 ms after the first, inside the 300 ms batching window — leave the buffer
at `"X"`, not at its pre-edit state `"A"`: the second edit is absorbed into
the in-flight batch, so its `undo` pops past the batch boundary. -/
theorem c1_counterexample :
    sessionXA.activeDoc.text = ['A'] ∧
    (editUndoPairs sessionXA
        [(800, ⟨['B'], 0, 0⟩), (900, ⟨['C'], 0, 0⟩)]).activeDoc.text = ['X'] ∧
    (editUndoPairs sessionXA
        [(800, ⟨['B'], 0, 0⟩), (900, ⟨['C'], 0, 0⟩)]).activeDoc.text
      ≠ sessionXA.activeDoc.text := by
  refine ⟨by decide, by decide, by decide⟩

/-- C1 witness: at `sessionXA` with two spaced edits (t = 800 and t = 1200,
both outside the batching window), the pairs restore `"A"` and the two
redos land on the final edit's text `"C"`. -/
theorem c1_witness :
    (editUndoPairs sessionXA
        [(800, ⟨['B'], 0, 0⟩), (1200, ⟨['C'], 0, 0⟩)]).activeDoc.text
      = sessionXA.activeDoc.text ∧
    (Notepad.redo^[2] (editUndoPairs sessionXA
        [(800, ⟨['B'], 0, 0⟩), (1200, ⟨['C'], 0, 0⟩)])).activeDoc.text = ['C'] := by
  have h := c1_undo_redo_inverse_amended sessionXA
    [(800, ⟨['B'], 0, 0⟩), (1200, ⟨['C'], 0, 0⟩)]
    (by decide) (by decide) (by decide)
  exact ⟨h.1, h.2⟩

-- ---------------------------------------------------------------------------
-- C4: redo stack clearing on edits
-- ---------------------------------------------------------------------------

/-- C4 (amended): every content-mutating edit that pushes a new snapshot —
a keystroke edit arriving outside the 300 ms batching window of the
document's previous recorded edit, or any boundary operation going through
`save_snapshot` (cut, paste, replace, date-insert) — leaves the active
document's redo stack empty.  (A keystroke edit absorbed into the in-flight
batch does not touch the redo stack.) -/
theorem c4_redo_cleared_on_snapshot_edit (n : Notepad) (now : Nat) (e : EditOp)
    (hA : n.active_tab < n.tabs.length)
    (hfresh : shouldSave n.activeDoc.last_edit_time now = true) :
    (n.applyEdit now e).activeDoc.redo_stack = [] ∧
    n.saveSnapshot.activeDoc.redo_stack = [] := by
  constructor
  · have h1 := (withActive_frame n (fun d => d.applyEditD now e) hA).1
    show (n.withActive (fun d => d.applyEditD now e)).activeDoc.redo_stack = []
    rw [h1, applyEditD_fresh n.activeDoc now e hfresh]
  · have h1 := (withActive_frame n Document.saveSnap hA).1
    show (n.withActive Document.saveSnap).activeDoc.redo_stack = []
    rw [h1]
    rfl

/-- C4 counterexample: from the pristine session, a keystroke edit at
t = 0 ms, an `undo` (which fills the redo stack), then a keystroke edit at
t = 100 ms — inside the 300 ms batching window.  After this second
content-mutating edit (which is not an undo/redo) the redo stack is not
empty: the batched edit never clears it. -/
theorem c4_counterexample :
    (((emptySession.applyEdit 0 ⟨['X'], 0, 0⟩).undo).applyEdit
        100 ⟨['Y'], 0, 0⟩).activeDoc.redo_stack ≠ [] := by
  decide

/-- C4 witness: a fresh edit on the session obtained from `sessionXA` by one
`undo` (whose redo stack is non-empty) clears the redo stack. -/
theorem c4_witness :
    (sessionXA.undo.applyEdit 800 ⟨['B'], 0, 0⟩).activeDoc.redo_stack = [] ∧
    sessionXA.undo.saveSnapshot.activeDoc.redo_stack = [] := by
  have h := c4_redo_cleared_on_snapshot_edit sessionXA.undo 800 ⟨['B'], 0, 0⟩
    (by decide) (by decide)
  exact ⟨h.1, h.2⟩

-- ---------------------------------------------------------------------------
-- Search engine (src/update.rs:988-1109), literal matcher
-- ---------------------------------------------------------------------------

/-- Leftmost occurrence (as a scalar-value index) of the literal query in a
haystack: the behaviour of `Regex::find` for the matcher `build_regex`
produces when `use_regex = false` and `case_sensitive = true` (the escaped
query matches itself literally). -/
def firstMatchIdx (q : Str) : Str → Option Nat
  | [] => if q.isPrefixOf ([] : Str) then some 0 else none
  | c :: cs =>
    if q.isPrefixOf (c :: cs) then some 0
    else (firstMatchIdx q cs).map (· + 1)

/-- The successive non-overlapping leftmost matches of `find_iter`, as
scalar-value indices.  The fuel argument only bounds the recursion; every
iteration consumes at least one scalar value, so `s.length + 1` units never
run out. -/
def matchSeqGo (q : Str) : Nat → Str → Nat → List Nat
  | 0, _, _ => []
  | f + 1, s, base =>
    match firstMatchIdx q s with
    | none => []
    | some k =>
      let step := k + max q.length 1
      if s.length < step then [base + k]
      else (base + k) :: matchSeqGo q f (s.drop step) (base + step)

/-- All `find_iter` match start indices over the haystack. -/
def matchSeq (q s : Str) : List Nat := matchSeqGo q (s.length + 1) s 0

/-- The last `find_iter` match, as `rfind_in` computes it. -/
def lastMatch (q s : Str) : Option Nat := (matchSeq q s).getLast?

/-- Embeds `Notepad::find_in` (src/update.rs:1010-1014): search `&haystack[start..]`
and return the (byte position, byte length) of the first match.  The outer
`Option` models the panic of slicing at a non-boundary byte index: `none`
is a panic, `some found` the Rust return value. -/
def findIn (query haystack : Str) (start : Nat) : Option (Option (Nat × Nat)) :=
  if boundaryB haystack start then
    let s := dropBytes haystack start
    some ((firstMatchIdx query s).map
      (fun k => (start + utf8Len (s.take k), utf8Len query)))
  else none

/-- Embeds `Notepad::rfind_in` (src/update.rs:1016-1023): iterate the matcher over
`&haystack[..upTo]` and keep the last match.  Outer `none` models the panic
of slicing at a non-boundary byte index. -/
def rfindIn (query haystack : Str) (upTo : Nat) : Option (Option (Nat × Nat)) :=
  if boundaryB haystack upTo then
    let s := takeBytes haystack upTo
    some ((lastMatch query s).map
      (fun k => (utf8Len (s.take k), utf8Len query)))
  else none

/-- Embeds `Notepad::highlight_match` (src/update.rs:988-994): advance the shared
search cursor past the match and move the buffer cursor to the match start.
(The selection extended over the match is view state the adapter holds; the
slicings inside happen at match boundaries and cannot panic.) -/
def Notepad.highlightMatch (n : Notepad) (bytePos matchLen : Nat) (t : Str) : Notepad :=
  let n1 := { n with find_cursor := bytePos + matchLen }
  let lc := byte_pos_to_line_col t bytePos
  n1.withActive (fun d => d.navTo lc.1 lc.2)

/-- Embeds `Notepad::find_next` (src/update.rs:1025-1043): no-op on empty query or
text; probe from `min find_cursor len` when below the text length, then wrap
with a single probe from offset 0.  Outer `none` models a panic. -/
def Notepad.findNext (n : Notepad) : Option Notepad :=
  let t := n.activeDoc.text
  if n.find_query.isEmpty || t.isEmpty then some n
  else
    let len := utf8Len t
    let searchFrom := min n.find_cursor len
    let probe1 : Option (Option (Nat × Nat)) :=
      if searchFrom < len then findIn n.find_query t searchFrom else some none
    match probe1 with
    | none => none
    | some (some m) => some (n.highlightMatch m.1 m.2 t)
    | some none =>
      match findIn n.find_query t 0 with
      | none => none
      | some (some m) => some (n.highlightMatch m.1 m.2 t)
      | some none => some n

/-- Embeds `Notepad::find_previous` (src/update.rs:1045-1064): backward search over
`&text[..find_cursor - 1]` (saturating), wrapping to the whole text.  Outer
`none` models a panic — `rfind_in` slices the text at `find_cursor - 1`,
which need not be a char boundary. -/
def Notepad.findPrevious (n : Notepad) : Option Notepad :=
  let t := n.activeDoc.text
  if n.find_query.isEmpty || t.isEmpty then some n
  else
    let searchUntil := n.find_cursor - 1
    match (if 0 < searchUntil then rfindIn n.find_query t searchUntil
           else some none) with
    | none => none
    | some (some m) => some (n.highlightMatch m.1 m.2 t)
    | some none =>
      match rfindIn n.find_query t (utf8Len t) with
      | none => none
      | some (some m) => some (n.highlightMatch m.1 m.2 t)
      | some none => some n

/-- Global literal replacement: each non-overlapping leftmost match replaced
by `r`, as `Regex::replace_all` does for a literal pattern and a literal
replacement.  Fuel bounds the recursion; every step consumes at least one
scalar value, so `s.length + 1` units never run out.  (The `q = []` branch
is unreachable: `replace_all` is guarded by `find_query.is_empty`.) -/
def replaceAllGo (q r : Str) : Nat → Str → Str
  | 0, s => s
  | f + 1, s =>
    match firstMatchIdx q s with
    | none => s
    | some k =>
      if q = [] then s
      else s.take k ++ r ++ replaceAllGo q r f (s.drop (k + q.length))

/-- Embeds `Regex::replace_all` over the whole text, literal query/replacement. -/
def replaceAllText (q r s : Str) : Str := replaceAllGo q r (s.length + 1) s

/-- Embeds `Notepad::replace_all` (src/update.rs:1091-1109): no-op on an empty
query; otherwise replace every match in one pass and, only if the text
changed, snapshot history once and install the new text as a fresh buffer
(cursor at the origin — an adapter detail no claim observes). -/
def Notepad.replaceAll (n : Notepad) : Notepad :=
  if n.find_query.isEmpty then n
  else
    let t := n.activeDoc.text
    let newText := replaceAllText n.find_query n.replace_query t
    if t ≠ newText then
      let n1 := n.saveSnapshot
      n1.withActive (fun d =>
        { d with
          text := newText
          cursor_line := 0
          cursor_col := 0
          is_modified := true })
    else n

theorem boundaryB_zero (s : Str) : boundaryB s 0 = true := by
  cases s <;> rfl

theorem dropBytes_zero (s : Str) : dropBytes s 0 = s := by
  cases s <;> rfl

/-- C5 (amended): `find_next` wraps around and terminates when the search
cursor addresses the current text: if the query and text are non-empty, the
cursor (clamped to the text's byte length) lies on a char boundary of the
current text, and no match exists at or after it — the forward probe runs
and fails, or is skipped when the cursor sits at or past the end — then the
single post-wrap probe from offset 0 settles the search without a third
probe: `find_next` locates the leftmost occurrence of the whole text (the
search cursor advancing past that match), or returns with the state
unchanged when the text holds no match at all. -/
theorem c5_find_next_wraps_amended (n : Notepad)
    (hq : n.find_query ≠ []) (ht : n.activeDoc.text ≠ [])
    (hb : boundaryB n.activeDoc.text
        (min n.find_cursor (utf8Len n.activeDoc.text)) = true)
    (hfwd : firstMatchIdx n.find_query
        (dropBytes n.activeDoc.text
          (min n.find_cursor (utf8Len n.activeDoc.text))) = none) :
    (∀ j, firstMatchIdx n.find_query n.activeDoc.text = some j →
      n.findNext = some (n.highlightMatch (utf8Len (n.activeDoc.text.take j))
          (utf8Len n.find_query) n.activeDoc.text) ∧
      (n.highlightMatch (utf8Len (n.activeDoc.text.take j))
          (utf8Len n.find_query) n.activeDoc.text).find_cursor
        = utf8Len (n.activeDoc.text.take j) + utf8Len n.find_query) ∧
    (firstMatchIdx n.find_query n.activeDoc.text = none →
      n.findNext = some n) := by
  have hq' : n.find_query.isEmpty = false := by
    simp [List.isEmpty_iff, hq]
  have ht' : n.activeDoc.text.isEmpty = false := by
    simp [List.isEmpty_iff, ht]
  have hprobe : (if min n.find_cursor (utf8Len n.activeDoc.text)
        < utf8Len n.activeDoc.text
      then findIn n.find_query n.activeDoc.text
        (min n.find_cursor (utf8Len n.activeDoc.text))
      else some none) = some none := by
    split
    · unfold findIn
      rw [if_pos hb]
      dsimp only
      rw [hfwd]
      rfl
    · rfl
  constructor
  · intro j hj
    refine ⟨?_, rfl⟩
    simp only [Notepad.findNext, hq', ht', Bool.or_self, Bool.false_eq_true,
      if_false]
    rw [hprobe]
    simp only [findIn, boundaryB_zero, dropBytes_zero, if_true, hj,
      Option.map_some, Option.map_some', Nat.zero_add]
  · intro hnone
    simp only [Notepad.findNext, hq', ht', Bool.or_self, Bool.false_eq_true,
      if_false]
    rw [hprobe]
    simp only [findIn, boundaryB_zero, dropBytes_zero, if_true, hnone,
      Option.map_none, Option.map_none']

/-- Session with buffer `"ab"` and literal query `"a"`, cursor at 0. -/
def sessionStaleCursor : Notepad :=
  { tabs := [{ Document.default with text := ['a', 'b'] }]
    active_tab := 0
    find_query := ['a']
    replace_query := []
    find_cursor := 0 }

/-- C5 counterexample: the claim as stated fails for a reachable stale
search cursor inside the text.  From `sessionStaleCursor`, `find_next`
matches `"a"` at 0 and sets `find_cursor = 1`; the user then edits the
buffer to `"éx"` (edits do not reset the shared search cursor).  Now the
query and text are non-empty and no match exists at or after `find_cursor`,
yet the next `find_next` does not resume from offset 0: its forward probe
slices `&text[1..]` with byte 1 inside the two-byte `'é'`, which panics
(modelled as `none`) instead of wrapping and terminating. -/
theorem c5_counterexample :
    sessionStaleCursor.findNext.map Notepad.find_cursor = some 1 ∧
    sessionStaleCursor.findNext.map
        (fun n1 => (n1.applyEdit 0 ⟨['é', 'x'], 0, 0⟩).findNext)
      = some none := by
  refine ⟨by decide, by decide⟩

/-- Session with buffer `"abc def abc"`, literal query `"abc"` and the
shared search cursor past the end of the text. -/
def sessionFind : Notepad :=
  { tabs := [{ Document.default with
      text := ['a', 'b', 'c', ' ', 'd', 'e', 'f', ' ', 'a', 'b', 'c'] }]
    active_tab := 0
    find_query := ['a', 'b', 'c']
    replace_query := []
    find_cursor := 100 }

/-- Session with buffer `"abcx"`, query `"abc"` and the cursor at 3, right
after the only match — the spec's wrap-termination scenario with the cursor
strictly inside the text. -/
def sessionOnlyMatchBehind : Notepad :=
  { tabs := [{ Document.default with text := ['a', 'b', 'c', 'x'] }]
    active_tab := 0
    find_query := ['a', 'b', 'c']
    replace_query := []
    find_cursor := 3 }

/-- C5 witness: on `sessionFind` (cursor past the end) `find_next` wraps and
locates the match at byte offset 0, the search cursor landing at 3; on
`sessionOnlyMatchBehind` (cursor inside the text, forward probe runs and
fails) the single post-wrap probe likewise lands on the match at offset
0. -/
theorem c5_witness :
    sessionFind.findNext
      = some (sessionFind.highlightMatch 0 3 sessionFind.activeDoc.text) ∧
    (sessionFind.highlightMatch 0 3 sessionFind.activeDoc.text).find_cursor = 3 ∧
    sessionOnlyMatchBehind.findNext
      = some (sessionOnlyMatchBehind.highlightMatch 0 3
          sessionOnlyMatchBehind.activeDoc.text) := by
  have h1 := c5_find_next_wraps_amended sessionFind (by decide) (by decide)
    (by decide) (by decide)
  have h2 := c5_find_next_wraps_amended sessionOnlyMatchBehind (by decide)
    (by decide) (by decide) (by decide)
  have ha := h1.1 0 (by decide)
  have hb2 := h2.1 0 (by decide)
  exact ⟨ha.1.trans (by decide), by decide, hb2.1.trans (by decide)⟩

-- ---------------------------------------------------------------------------
-- C3: find_previous slicing panic
-- ---------------------------------------------------------------------------

/-- Session with buffer `"éa"` and literal query `"é"` — plain user input. -/
def sessionAccent : Notepad :=
  { tabs := [{ Document.default with text := ['é', 'a'] }]
    active_tab := 0
    find_query := ['é']
    replace_query := []
    find_cursor := 0 }

/-- C3: refuted — `find_previous` can slice inside a multi-byte character on
a reachable state.  On `sessionAccent`, `find_next` succeeds and sets
`find_cursor = 2` (the boundary after the two-byte `'é'`); the following
`find_previous` computes `search_until = find_cursor - 1 = 1`, and byte
index 1 is not a char boundary of `"éa"`, so `rfind_in`'s `&text[..1]`
panics (modelled as `none`). -/
theorem c3_find_previous_panics :
    sessionAccent.findNext.isSome = true ∧
    sessionAccent.findNext.map Notepad.find_cursor = some 2 ∧
    sessionAccent.findNext.bind Notepad.findPrevious = none ∧
    boundaryB ['é', 'a'] 1 = false := by
  refine ⟨by decide, by decide, by decide, by decide⟩

-- ---------------------------------------------------------------------------
-- C7: replace_all idempotence
-- ---------------------------------------------------------------------------

theorem replaceAllText_of_no_match (q r s : Str)
    (h : firstMatchIdx q s = none) : replaceAllText q r s = s := by
  unfold replaceAllText
  simp only [replaceAllGo, h]

theorem replaceAll_queries (n : Notepad) :
    n.replaceAll.find_query = n.find_query ∧
    n.replaceAll.replace_query = n.replace_query := by
  unfold Notepad.replaceAll
  split
  · exact ⟨rfl, rfl⟩
  · dsimp only
    split
    · exact ⟨rfl, rfl⟩
    · exact ⟨rfl, rfl⟩

theorem replaceAll_of_no_change (m : Notepad)
    (h : replaceAllText m.find_query m.replace_query m.activeDoc.text
      = m.activeDoc.text) : m.replaceAll = m := by
  unfold Notepad.replaceAll
  split
  · rfl
  · dsimp only
    rw [h]
    simp

/-- C7: once the text produced by `replace_all` contains no further match of
the query, a second `replace_all` with the same query/replacement pair is a
complete no-op: the whole session state — in particular the buffer text and
the undo stack (no new snapshot) — is exactly the state after the first
run. -/
theorem c7_replace_all_idempotent (n : Notepad)
    (hnm : firstMatchIdx n.find_query n.replaceAll.activeDoc.text = none) :
    n.replaceAll.replaceAll = n.replaceAll ∧
    n.replaceAll.replaceAll.activeDoc.text = n.replaceAll.activeDoc.text ∧
    n.replaceAll.replaceAll.activeDoc.undo_stack
      = n.replaceAll.activeDoc.undo_stack := by
  have hq := (replaceAll_queries n).1
  have h0 : replaceAllText n.replaceAll.find_query n.replaceAll.replace_query
      n.replaceAll.activeDoc.text = n.replaceAll.activeDoc.text := by
    rw [hq]
    exact replaceAllText_of_no_match _ _ _ hnm
  have heq := replaceAll_of_no_change n.replaceAll h0
  exact ⟨heq, by rw [heq], by rw [heq]⟩

/-- Session with buffer `"hello world hello"`, query `"hello"`, replacement
`"hi"`. -/
def sessionHello : Notepad :=
  { tabs := [{ Document.default with
      text := ['h', 'e', 'l', 'l', 'o', ' ', 'w', 'o', 'r', 'l', 'd', ' ',
               'h', 'e', 'l', 'l', 'o'] }]
    active_tab := 0
    find_query := ['h', 'e', 'l', 'l', 'o']
    replace_query := ['h', 'i']
    find_cursor := 0 }

/-- C7 witness: one `replace_all` yields `"hi world hi"` (no further match),
and the second run changes nothing at all. -/
theorem c7_witness :
    sessionHello.replaceAll.activeDoc.text
      = ['h', 'i', ' ', 'w', 'o', 'r', 'l', 'd', ' ', 'h', 'i'] ∧
    sessionHello.replaceAll.replaceAll = sessionHello.replaceAll := by
  have h := c7_replace_all_idempotent sessionHello (by decide)
  exact ⟨by decide, h.1⟩

-- ---------------------------------------------------------------------------
-- C8: decode_bytes (src/update.rs:880-896); encoding_rs is an external
-- crate, modelled by the WHATWG decoding algorithms it implements
-- ---------------------------------------------------------------------------

/-- The encodings `decode_bytes` can name. -/
inductive Encoding where
  | utf8
  | utf16le
  | utf16be
  | windows1252
deriving DecidableEq

/-- Embeds `encoding_rs::Encoding::for_bom`: the three byte-order marks and their
byte lengths. -/
def bomOf (bs : List Nat) : Option (Encoding × Nat) :=
  match bs with
  | 0xEF :: 0xBB :: 0xBF :: _ => some (.utf8, 3)
  | 0xFE :: 0xFF :: _ => some (.utf16be, 2)
  | 0xFF :: 0xFE :: _ => some (.utf16le, 2)
  | _ => none

/-- U+FFFD REPLACEMENT CHARACTER. -/
def replChar : Char := Char.ofNat 0xFFFD

/-- WHATWG UTF-8 decoder with replacement of maximal subparts, returning the
decoded scalar values and whether any malformed sequence was met (the
`had_errors` flag of `encoding_rs`).  The fuel only bounds the recursion:
every step consumes at least one byte, so `length + 1` units never run
out. -/
def utf8Go : Nat → List Nat → (List Char × Bool)
  | 0, _ => ([], false)
  | _ + 1, [] => ([], false)
  | f + 1, b :: bs =>
    if b ≤ 0x7F then
      let r := utf8Go f bs
      (Char.ofNat b :: r.1, r.2)
    else if 0xC2 ≤ b && b ≤ 0xDF then
      match bs with
      | b1 :: bs1 =>
        if 0x80 ≤ b1 && b1 ≤ 0xBF then
          let r := utf8Go f bs1
          (Char.ofNat ((b - 0xC0) * 64 + (b1 - 0x80)) :: r.1, r.2)
        else
          let r := utf8Go f bs
          (replChar :: r.1, true)
      | [] => ([replChar], true)
    else if 0xE0 ≤ b && b ≤ 0xEF then
      match bs with
      | b1 :: bs1 =>
        if (if b = 0xE0 then 0xA0 else 0x80) ≤ b1 &&
            b1 ≤ (if b = 0xED then 0x9F else 0xBF) then
          match bs1 with
          | b2 :: bs2 =>
            if 0x80 ≤ b2 && b2 ≤ 0xBF then
              let r := utf8Go f bs2
              (Char.ofNat ((b - 0xE0) * 4096 + (b1 - 0x80) * 64 + (b2 - 0x80))
                :: r.1, r.2)
            else
              let r := utf8Go f bs1
              (replChar :: r.1, true)
          | [] => ([replChar], true)
        else
          let r := utf8Go f bs
          (replChar :: r.1, true)
      | [] => ([replChar], true)
    else if 0xF0 ≤ b && b ≤ 0xF4 then
      match bs with
      | b1 :: bs1 =>
        if (if b = 0xF0 then 0x90 else 0x80) ≤ b1 &&
            b1 ≤ (if b = 0xF4 then 0x8F else 0xBF) then
          match bs1 with
          | b2 :: bs2 =>
            if 0x80 ≤ b2 && b2 ≤ 0xBF then
              match bs2 with
              | b3 :: bs3 =>
                if 0x80 ≤ b3 && b3 ≤ 0xBF then
                  let r := utf8Go f bs3
                  (Char.ofNat ((b - 0xF0) * 262144 + (b1 - 0x80) * 4096 +
                    (b2 - 0x80) * 64 + (b3 - 0x80)) :: r.1, r.2)
                else
                  let r := utf8Go f bs2
                  (replChar :: r.1, true)
              | [] => ([replChar], true)
            else
              let r := utf8Go f bs1
              (replChar :: r.1, true)
          | [] => ([replChar], true)
        else
          let r := utf8Go f bs
          (replChar :: r.1, true)
      | [] => ([replChar], true)
    else
      let r := utf8Go f bs
      (replChar :: r.1, true)

/-- Full UTF-8 decode: decoded text plus the `had_errors` flag. -/
def utf8DecodeFull (bs : List Nat) : (List Char × Bool) :=
  utf8Go (bs.length + 1) bs

/-- WHATWG UTF-16 decoder (little- or big-endian), replacing unpaired
surrogates and a lone trailing byte with U+FFFD, as `encoding_rs` does. -/
def utf16Go (le : Bool) : Nat → List Nat → List Char
  | 0, _ => []
  | _ + 1, [] => []
  | _ + 1, [_] => [replChar]
  | f + 1, b0 :: b1 :: bs =>
    let u := if le then b1 * 256 + b0 else b0 * 256 + b1
    if u < 0xD800 || 0xDFFF < u then Char.ofNat u :: utf16Go le f bs
    else if u ≤ 0xDBFF then
      match bs with
      | b2 :: b3 :: bs2 =>
        let u2 := if le then b3 * 256 + b2 else b2 * 256 + b3
        if 0xDC00 ≤ u2 && u2 ≤ 0xDFFF then
          Char.ofNat (0x10000 + (u - 0xD800) * 1024 + (u2 - 0xDC00))
            :: utf16Go le f bs2
        else replChar :: utf16Go le f bs
      | _ => replChar :: utf16Go le f bs
    else replChar :: utf16Go le f bs

/-- The WINDOWS-1252 single-byte table: ASCII and `0xA0`-`0xFF` map to the
same code point, `0x80`-`0x9F` per the table (the five unassigned bytes map
to the C1 controls of the same value, as in `encoding_rs`). -/
def cp1252Char (b : Nat) : Char :=
  if b = 0x80 then Char.ofNat 0x20AC
  else if b = 0x82 then Char.ofNat 0x201A
  else if b = 0x83 then Char.ofNat 0x0192
  else if b = 0x84 then Char.ofNat 0x201E
  else if b = 0x85 then Char.ofNat 0x2026
  else if b = 0x86 then Char.ofNat 0x2020
  else if b = 0x87 then Char.ofNat 0x2021
  else if b = 0x88 then Char.ofNat 0x02C6
  else if b = 0x89 then Char.ofNat 0x2030
  else if b = 0x8A then Char.ofNat 0x0160
  else if b = 0x8B then Char.ofNat 0x2039
  else if b = 0x8C then Char.ofNat 0x0152
  else if b = 0x8E then Char.ofNat 0x017D
  else if b = 0x91 then Char.ofNat 0x2018
  else if b = 0x92 then Char.ofNat 0x2019
  else if b = 0x93 then Char.ofNat 0x201C
  else if b = 0x94 then Char.ofNat 0x201D
  else if b = 0x95 then Char.ofNat 0x2022
  else if b = 0x96 then Char.ofNat 0x2013
  else if b = 0x97 then Char.ofNat 0x2014
  else if b = 0x98 then Char.ofNat 0x02DC
  else if b = 0x99 then Char.ofNat 0x2122
  else if b = 0x9A then Char.ofNat 0x0161
  else if b = 0x9B then Char.ofNat 0x203A
  else if b = 0x9C then Char.ofNat 0x0153
  else if b = 0x9E then Char.ofNat 0x017E
  else if b = 0x9F then Char.ofNat 0x0178
  else Char.ofNat b

/-- WINDOWS-1252 decode: one scalar value per byte, never failing. -/
def cp1252Decode (bs : List Nat) : List Char := bs.map cp1252Char

/-- Decoding a byte stream with a given encoding, without BOM sniffing. -/
def decodePlain : Encoding → List Nat → List Char
  | .utf8, bs => (utf8DecodeFull bs).1
  | .utf16le, bs => utf16Go true (bs.length + 1) bs
  | .utf16be, bs => utf16Go false (bs.length + 1) bs
  | .windows1252, bs => cp1252Decode bs

/-- The text produced by `encoding_rs::Encoding::decode`, which BOM-sniffs
and lets a leading BOM override the nominal encoding. -/
def decodeSniffText (e : Encoding) (bs : List Nat) : List Char :=
  match bomOf bs with
  | some (e2, k) => decodePlain e2 (bs.drop k)
  | none => decodePlain e bs

/-- Embeds `Notepad::decode_bytes` (src/update.rs:880-896): (1) a recognized BOM is
consumed and its encoding used; (2) else strict UTF-8 if it decodes without
errors; (3) else the WINDOWS-1252 fallback. -/
def decode_bytes (bs : List Nat) : List Char × Encoding :=
  match bomOf bs with
  | some (e, k) => (decodeSniffText e (bs.drop k), e)
  | none =>
    let r := utf8DecodeFull bs
    if r.2 = false then (r.1, .utf8)
    else (cp1252Decode bs, .windows1252)

/-- C8: decoding is total and follows the three-step algorithm: a recognized
BOM is consumed and its encoding used for decoding and for the tag; else
error-free strict UTF-8 yields the UTF-8 decoding; else the WINDOWS-1252
fallback applies, which never fails — it yields exactly one scalar value per
input byte.  In particular `[0x48,0x65,0x6C,0x6C,0x6F,0xE9]` decodes to
`"Helloé"` under the fallback encoding. -/
theorem c8_decode_bytes_total :
    (∀ bs e k, bomOf bs = some (e, k) →
      decode_bytes bs = (decodeSniffText e (bs.drop k), e)) ∧
    (∀ bs, bomOf bs = none → (utf8DecodeFull bs).2 = false →
      decode_bytes bs = ((utf8DecodeFull bs).1, .utf8)) ∧
    (∀ bs, bomOf bs = none → (utf8DecodeFull bs).2 = true →
      decode_bytes bs = (cp1252Decode bs, .windows1252) ∧
        (decode_bytes bs).1.length = bs.length) ∧
    decode_bytes [0x48, 0x65, 0x6C, 0x6C, 0x6F, 0xE9]
      = (['H', 'e', 'l', 'l', 'o', 'é'], .windows1252) := by
  refine ⟨?_, ?_, ?_, by decide⟩
  · intro bs e k h
    unfold decode_bytes
    rw [h]
  · intro bs h h8
    unfold decode_bytes
    rw [h]
    dsimp only
    rw [h8]
    rfl
  · intro bs h h8
    have hmain : decode_bytes bs = (cp1252Decode bs, .windows1252) := by
      unfold decode_bytes
      rw [h]
      dsimp only
      rw [h8]
      rfl
    refine ⟨hmain, ?_⟩
    rw [hmain]
    exact List.length_map bs cp1252Char

/-- C8 witness: the legacy-fallback example, obtained through the theorem's
third branch: no BOM, UTF-8 errors, WINDOWS-1252 output of the same length
as the input. -/
theorem c8_witness :
    decode_bytes [0x48, 0x65, 0x6C, 0x6C, 0x6F, 0xE9]
      = (['H', 'e', 'l', 'l', 'o', 'é'], .windows1252) ∧
    (decode_bytes [0x48, 0x65, 0x6C, 0x6C, 0x6F, 0xE9]).1.length = 6 := by
  have h := c8_decode_bytes_total
  have h3 := h.2.2.1 [0x48, 0x65, 0x6C, 0x6C, 0x6F, 0xE9] (by decide) (by decide)
  exact ⟨h.2.2.2, h3.2.trans (by decide)⟩
